import Mathlib

/-!
Verification of the contest-reminder core.

Shallow embedding of the reminder subsystem:

* `database.py` — the durable reminder store backed by a sqlite table
  (`add_reminder`, `get_due_reminders`, `delete_reminder`);
* `main.py` — the periodic delivery loop (`check_reminders`).

Modelling choices:

* The sqlite table `reminders` is a list of rows plus the AUTOINCREMENT
  counter (`next_id`).  `AUTOINCREMENT` only ever grows, and `DELETE`
  does not reset it, so deletion leaves `next_id` unchanged.
* `main.py` uses PEP 701 f-strings (multi-line expressions inside
  single-quoted f-strings), so the code only runs on CPython ≥ 3.12.
  `datetime.fromisoformat` is therefore modelled on the extended
  ISO-8601 parser of that runtime (the C accelerator), transcribed
  function by function: separator location, calendar and `W` week
  dates in extended and basic form, `HH[:MM[:SS]]` clock with
  consistent separators, fractions of one or more digits (first six
  significant) after seconds, minutes or hours, numeric UTC offsets
  `±HH`, `±HHMM`, `±HH:MM`, `±HHMMSS`, `±HH:MM:SS` with optional
  fraction (components 0–99 each, total strictly below 24 h), the
  trailing `Z`, and the hour-24 midnight rollover of 3.12 — including
  the C parser's lenient corners (a swallowed junk character before the
  offset sign, the fraction reached through a stray `:` or, in the
  separator-less form, through no delimiter at all).
* `datetime.timestamp()` on an offset-aware value is derived from the
  UTC epoch microsecond count; on a naive value CPython interprets the
  fields in the *local timezone*, which we model as an explicit
  environment parameter `tz_env` (seconds east of UTC, a fixed offset).
  `int(x)` truncates toward zero; the float rounding of `.timestamp()`
  itself is not modelled.
* The nondeterministic notification send (`bot.fetch_user` + `user.send`
  in `check_reminders`) is a parameter `sink`; its three observable
  outcomes are `sent` (no exception), `recipientNotFound`
  (`discord.errors.NotFound`, caught and followed by deletion) and
  `transientFailure` (any other exception, caught without deletion).
-/

/-- One row of the `reminders` table (`database.py`, `initialize_db`). -/
structure Reminder where
  id : Int
  user_id : Int
  contest_name : String
  contest_url : String
  reminder_time : Int
deriving DecidableEq, Repr

/-- The database state: the rows plus the AUTOINCREMENT counter. -/
structure DB where
  rows : List Reminder
  next_id : Int
deriving DecidableEq, Repr

/-- A parsed date-time: the result of `datetime.fromisoformat`.
`tz_offset` is the UTC offset in microseconds when the string carried
one (`none` means a naive datetime). -/
structure PyDateTime where
  year : Nat
  month : Nat
  day : Nat
  hour : Nat
  minute : Nat
  second : Nat
  usec : Nat
  tz_offset : Option Int
deriving DecidableEq, Repr

/-- Decimal digit value of a character, if it is a digit. -/
def digitVal (c : Char) : Option Nat :=
  if c.isDigit then some (c.toNat - 48) else none

/-- Read two decimal digits. -/
def read2 : List Char → Option (Nat × List Char)
  | a :: b :: rest => do
    let x ← digitVal a
    let y ← digitVal b
    pure (x * 10 + y, rest)
  | _ => none

/-- Read four decimal digits. -/
def read4 : List Char → Option (Nat × List Char)
  | a :: b :: c :: d :: rest => do
    let x ← digitVal a
    let y ← digitVal b
    let z ← digitVal c
    let w ← digitVal d
    pure (x * 1000 + y * 100 + z * 10 + w, rest)
  | _ => none

/-- Is `y` a (proleptic Gregorian) leap year, as `datetime` defines it. -/
def isLeap (y : Nat) : Bool :=
  y % 4 = 0 && (y % 100 ≠ 0 || y % 400 = 0)

/-- Number of days in month `m` of year `y`. -/
def daysInMonth (y m : Nat) : Nat :=
  if m = 2 then (if isLeap y then 29 else 28)
  else if m = 4 || m = 6 || m = 9 || m = 11 then 30
  else 31

/-- Digit-string value, most significant first (the `parse_digits` /
`int()` of the CPython parser, digits only). -/
def digitsToNat (cs : List Char) : Nat :=
  cs.foldl (fun a c => a * 10 + (c.toNat - 48)) 0

/-- Read one decimal digit (the ISO week-day number). -/
def read1 : List Char → Option (Nat × List Char)
  | a :: rest => do
    let x ← digitVal a
    pure (x, rest)
  | _ => none

/-- Fractional part after the time components, as the C parser reads it:
at least one character, all characters decimal digits, the first six
significant (`microsecond`), the rest discarded. -/
def parseFracC (cs : List Char) : Option Nat :=
  if cs ≠ [] ∧ cs.all (fun c => c.isDigit) then
    some (digitsToNat (cs.take 6) * 10 ^ (6 - (cs.take 6).length))
  else none

/-- Seconds-and-fraction tail of `parse_hh_mm_ss_ff` (loop iteration
`i = 2` of the C parser plus the fraction block).  Returns
`(second, microsecond, trailing)` where `trailing` records that the
final character of the region was swallowed unexamined (the C code's
`return c != 0` path). -/
def parse_sec_frac (has_sep : Bool) (rs : List Char) :
    Option (Nat × Nat × Bool) := do
  let (s, r4) ← read2 rs
  match r4 with
  | [] => pure (s, 0, false)
  | [_] => pure (s, 0, true)
  | c3 :: r5 =>
    if c3 = '.' ∨ c3 = ',' then do
      let us ← parseFracC r5
      pure (s, us, false)
    else if c3 = ':' then
      if has_sep then do
        let us ← parseFracC r5
        pure (s, us, false)
      else none
    else if has_sep then none
    else do
      let us ← parseFracC (c3 :: r5)
      pure (s, us, false)

/-- Model of the C `parse_hh_mm_ss_ff`: `HH`, optionally minutes and
seconds with a consistent use (or omission) of `:` separators, and an
optional fraction introduced by `.` or `,` — or, after the seconds,
by a stray `:` or by nothing at all in the separator-less form, exactly
as the C loop falls through to its fraction block.  A single trailing
character of the region is swallowed (`trailing = true`); the caller
decides whether that is allowed. -/
def parse_time_c (cs : List Char) : Option (Nat × Nat × Nat × Nat × Bool) := do
  let (h, r0) ← read2 cs
  match r0 with
  | [] => pure (h, 0, 0, 0, false)
  | [_] => pure (h, 0, 0, 0, true)
  | c :: r1 =>
    let has_sep := c = ':'
    if c = '.' ∨ c = ',' then do
      let us ← parseFracC r1
      pure (h, 0, 0, us, false)
    else do
      let (mi, r2) ← read2 (if has_sep then r1 else c :: r1)
      match r2 with
      | [] => pure (h, mi, 0, 0, false)
      | [_] => pure (h, mi, 0, 0, true)
      | c2 :: r3 =>
        if c2 = '.' ∨ c2 = ',' then do
          let us ← parseFracC r3
          pure (h, mi, 0, us, false)
        else if c2 = ':' then
          if has_sep then do
            let (s, us, j) ← parse_sec_frac true r3
            pure (h, mi, s, us, j)
          else none
        else if has_sep then none
        else do
          let (s, us, j) ← parse_sec_frac false (c2 :: r3)
          pure (h, mi, s, us, j)

/-- Numeric UTC-offset suffix: the characters after the `+`/`-` sign,
parsed by the same `parse_hh_mm_ss_ff`, no trailing character allowed.
Components are each two digits (0–99, unchecked individually); the
offset is the signed total in microseconds, must be strictly less than
24 hours in magnitude, and collapses to UTC when the whole-second part
is zero (the C fast path returns the UTC singleton, dropping a
fractional part in that case). -/
def parse_tz_c (sign : Char) (cs : List Char) : Option Int := do
  let (th, tm, ts, tus, junk) ← parse_time_c cs
  if junk then none
  else
    let secs : Nat := th * 3600 + tm * 60 + ts
    if secs * 1000000 + tus < 86400000000 then
      some (if secs = 0 then 0
        else (if sign = '-' then -1 else 1) * ((secs * 1000000 + tus : Nat) : Int))
    else none

/-- Time-of-day portion including the optional timezone suffix: the
region is split at the first `+`, `-` or `Z`; `Z` must be the final
character and means UTC; a sign introduces a numeric offset.  A
swallowed trailing character in the clock part is only allowed when a
timezone suffix follows (in the C code the suffix region ends at the
sign rather than at the terminator). -/
def parse_isotime_c (cs : List Char) :
    Option (Nat × Nat × Nat × Nat × Option Int) := do
  let timestr := cs.takeWhile (fun c => ¬(c = '+' ∨ c = '-' ∨ c = 'Z'))
  let rest := cs.dropWhile (fun c => ¬(c = '+' ∨ c = '-' ∨ c = 'Z'))
  let (h, mi, s, us, junk) ← parse_time_c timestr
  match rest with
  | [] => if junk then none else pure (h, mi, s, us, none)
  | 'Z' :: r => if r = [] then pure (h, mi, s, us, some 0) else none
  | sign :: tzcs => do
    let off ← parse_tz_c sign tzcs
    pure (h, mi, s, us, some off)

/-- Index of the first character at or after `start` that is missing or
not a decimal digit. -/
def scanDigits (cs : List Char) (start : Nat) : Nat :=
  start + ((cs.drop start).takeWhile (fun c => c.isDigit)).length

/-- Model of `_find_isoformat_datetime_separator`: the position of the
single character separating the date from the time, decided from the
shape of the first characters (calendar vs `W` week dates, `-`
separated vs basic). -/
def findSep (cs : List Char) : Option Nat :=
  let n := cs.length
  if n = 7 then some 7
  else if cs.get? 4 = some '-' then
    if cs.get? 5 = some 'W' then
      if 8 < n ∧ cs.get? 8 = some '-' then
        if n = 9 then none
        else if 10 < n ∧ ((cs.get? 10).map Char.isDigit).getD false then some 8
        else some 10
      else some 8
    else some 10
  else if cs.get? 4 = some 'W' then
    let idx := scanDigits cs 7
    if idx < 9 then some idx
    else if idx % 2 = 0 then some 7
    else some 8
  else some 8

/-- Days from the Unix epoch (1970-01-01) to civil date `(y, m, d)`,
for years 1..9999. -/
def days_from_civil (y m d : Nat) : Int :=
  let y' := if m ≤ 2 then y - 1 else y
  let era := y' / 400
  let yoe := y' % 400
  let mp := if m > 2 then m - 3 else m + 9
  let doy := (153 * mp + 2) / 5 + d - 1
  let doe := yoe * 365 + yoe / 4 - yoe / 100 + doy
  ((era * 146097 + doe : Nat) : Int) - 719468

/-- Civil date from days since the Unix epoch (inverse of
`days_from_civil`), for the supported year range. -/
def civil_from_days (z : Int) : Nat × Nat × Nat :=
  let n := (z + 719468).toNat
  let era := n / 146097
  let doe := n % 146097
  let yoe := (doe - doe / 1460 + doe / 36524 - doe / 146096) / 365
  let y := yoe + era * 400
  let doy := doe - (365 * yoe + yoe / 4 - yoe / 100)
  let mp := (5 * doy + 2) / 153
  let d := doy - (153 * mp + 2) / 5 + 1
  let m := if mp < 10 then mp + 3 else mp - 9
  (if m ≤ 2 then y + 1 else y, m, d)

/-- Model of `_isoweek_to_gregorian`: ISO year/week/weekday to a civil
date, with CPython's validation (weeks 1–52, week 53 only in long
years, weekdays 1–7, result within the supported range). -/
def isoweek_to_civil (y w dn : Nat) : Option (Nat × Nat × Nat) :=
  if 1 ≤ y ∧ y ≤ 9999 ∧ 1 ≤ dn ∧ dn ≤ 7 then
    let f := days_from_civil y 1 1
    let fw0 := (f + 719163) % 7
    if 1 ≤ w ∧ (w ≤ 52 ∨ (w = 53 ∧ (fw0 = 4 ∨ (fw0 = 3 ∧ isLeap y)))) then
      let fw := (f + 719163 + 6) % 7
      let week1monday := f - fw + (if 3 < fw then 7 else 0)
      let days := week1monday + (((w - 1) * 7 + (dn - 1) : Nat) : Int)
      if days_from_civil 1 1 1 ≤ days ∧ days ≤ days_from_civil 9999 12 31 then
        some (civil_from_days days)
      else none
    else none
  else none

/-- Model of `_parse_isoformat_date`: `YYYY-MM-DD` or `YYYYMMDD`
calendar dates and `YYYY-Www[-D]` / `YYYYWww[D]` week dates, with a
consistent use of the dash separator and full validation. -/
def parse_isodate_c (dcs : List Char) : Option (Nat × Nat × Nat) := do
  let (y, r0) ← read4 dcs
  if 1 ≤ y then
    match r0 with
    | '-' :: 'W' :: r1 => do
      let (w, r2) ← read2 r1
      match r2 with
      | [] => isoweek_to_civil y w 1
      | '-' :: r3 => do
        let (dn, r4) ← read1 r3
        if r4 = [] then isoweek_to_civil y w dn else none
      | _ => none
    | '-' :: r1 => do
      let (m, r2) ← read2 r1
      match r2 with
      | '-' :: r3 => do
        let (d, r4) ← read2 r3
        if r4 = [] ∧ 1 ≤ m ∧ m ≤ 12 ∧ 1 ≤ d ∧ d ≤ daysInMonth y m then
          pure (y, m, d)
        else none
      | _ => none
    | 'W' :: r1 => do
      let (w, r2) ← read2 r1
      match r2 with
      | [] => isoweek_to_civil y w 1
      | _ => do
        let (dn, r3) ← read1 r2
        if r3 = [] then isoweek_to_civil y w dn else none
    | _ => do
      let (m, r2) ← read2 r0
      match r2 with
      | '-' :: _ => none
      | _ => do
        let (d, r3) ← read2 r2
        if r3 = [] ∧ 1 ≤ m ∧ m ≤ 12 ∧ 1 ≤ d ∧ d ≤ daysInMonth y m then
          pure (y, m, d)
        else none
  else none

/-- Model of `datetime.fromisoformat` as implemented by the C
accelerator of CPython ≥ 3.12 (the only runtime able to import
`main.py`, which uses PEP 701 f-strings): split date from time at the
separator position, parse both parts, and apply the hour-24 midnight
rollover of 3.12.  Returns `none` where CPython raises. -/
def fromisoformat (s : String) : Option PyDateTime := do
  let cs := s.data
  if cs.length < 7 then none
  else do
    let pos ← findSep cs
    let (y, m, d) ← parse_isodate_c (cs.take pos)
    if cs.length ≤ pos then pure ⟨y, m, d, 0, 0, 0, 0, none⟩
    else if cs.length = pos + 1 then none
    else do
      let (h, mi, sec, us, tz) ← parse_isotime_c (cs.drop (pos + 1))
      if h = 24 ∧ mi = 0 ∧ sec = 0 ∧ us = 0 then
        let days := days_from_civil y m d + 1
        if days ≤ days_from_civil 9999 12 31 then
          let c := civil_from_days days
          pure ⟨c.1, c.2.1, c.2.2, 0, 0, 0, 0, tz⟩
        else none
      else if h ≤ 23 ∧ mi ≤ 59 ∧ sec ≤ 59 then pure ⟨y, m, d, h, mi, sec, us, tz⟩
      else none

/-- Model of the Python call `start_time_str.replace("Z", "+00:00")`:
the pattern is the single character `Z`, so the replacement substitutes
`+00:00` for every occurrence of `Z`, left to right. -/
def replaceZ (s : String) : String :=
  ⟨s.data.foldr
    (fun c acc =>
      if c = 'Z' then '+' :: '0' :: '0' :: ':' :: '0' :: '0' :: acc
      else c :: acc) []⟩

/-- Epoch microseconds of a parsed datetime: civil fields to seconds,
plus the microseconds, minus the UTC offset for an aware value and
minus the local-timezone offset `tz_env` (in seconds, a fixed offset)
for a naive one — the exact value whose division by 10⁶ is
`datetime.timestamp()`. -/
def epoch_us (dt : PyDateTime) (tz_env : Int) : Int :=
  let base := (days_from_civil dt.year dt.month dt.day * 86400 +
    ((dt.hour * 3600 + dt.minute * 60 + dt.second : Nat) : Int)) * 1000000 +
    (dt.usec : Int)
  match dt.tz_offset with
  | some off => base - off
  | none => base - tz_env * 1000000

/-- Model of `int(dt.timestamp())`: the exact epoch value in seconds,
truncated toward zero as Python's `int()` does (`.timestamp()` itself
is a float; its sub-microsecond rounding in the far future is not
modelled). -/
def timestamp_int (dt : PyDateTime) (tz_env : Int) : Int :=
  Int.tdiv (epoch_us dt tz_env) 1000000

/-- Outcomes of `database.add_reminder`: parse the start time, compute the reminder
instant, and insert unless a row with the same `(user_id, contest_url)`
exists.  `invalidTimestamp` is the `ValueError` escaping from
`datetime.fromisoformat` before any database write. -/
inductive AddResult where
  | created
  | alreadyExists
  | invalidTimestamp
deriving DecidableEq, Repr

/-- Model of `database.add_reminder` (lines 26–55), with the local timezone of
the process modelled by `tz_env`. -/
def add_reminder (tz_env : Int) (db : DB) (user_id : Int)
    (contest_name contest_url start_time_str : String)
    (remind_before_minutes : Int) : DB × AddResult :=
  match fromisoformat (replaceZ start_time_str) with
  | none => (db, .invalidTimestamp)
  | some dt_object =>
    let start_time_unix := timestamp_int dt_object tz_env
    let reminder_time_unix := start_time_unix - remind_before_minutes * 60
    if db.rows.any (fun r => r.user_id == user_id && r.contest_url == contest_url) then
      (db, .alreadyExists)
    else
      ({ rows := db.rows ++
          [⟨db.next_id, user_id, contest_name, contest_url, reminder_time_unix⟩],
         next_id := db.next_id + 1 }, .created)

/-- The row shape returned by `get_due_reminders`:
`(id, user_id, contest_name, contest_url)`. -/
abbrev DueRow := Int × Int × String × String

/-- The projection performed by the `SELECT id, user_id, contest_name,
contest_url` in `get_due_reminders`. -/
def dueProj (r : Reminder) : DueRow :=
  (r.id, r.user_id, r.contest_name, r.contest_url)

/-- Model of `database.get_due_reminders` (lines 58–70), with the wall clock
`int(time.time())` modelled by the parameter `now`. -/
def get_due_reminders (db : DB) (now : Int) : List DueRow :=
  (db.rows.filter (fun r => r.reminder_time ≤ now)).map dueProj

/-- Model of `database.delete_reminder` (lines 73–79): `DELETE FROM reminders
WHERE id = ?`. -/
def delete_reminder (db : DB) (reminder_id : Int) : DB :=
  { db with rows := db.rows.filter (fun r => r.id != reminder_id) }

/-- The three observable outcomes of the notification attempt in
`check_reminders` (`bot.fetch_user` + `user.send`). -/
inductive SendResult where
  | sent
  | recipientNotFound
  | transientFailure
deriving DecidableEq, Repr

/-- Observable events of one delivery-loop tick: a notification attempt
for reminder `rem_id` addressed to `user_id`, and a store removal. -/
inductive LoopEvent where
  | attempt (rem_id user_id : Int)
  | remove (rem_id : Int)
deriving DecidableEq, Repr

/-- The body of the `for` loop in `check_reminders` (lines 155–171),
run over the snapshot of due rows: attempt the send, then delete the
row on `sent` (normal return) and on `recipientNotFound`
(`discord.errors.NotFound`), and keep it on `transientFailure` (any
other exception).  Also records the event trace of the tick. -/
def process_due (sink : DueRow → SendResult) :
    DB → List DueRow → DB × List LoopEvent
  | db, [] => (db, [])
  | db, row :: rest =>
    let (db', evs') :=
      match sink row with
      | .sent => (delete_reminder db row.1, [LoopEvent.remove row.1])
      | .recipientNotFound => (delete_reminder db row.1, [LoopEvent.remove row.1])
      | .transientFailure => (db, [])
    let (db'', evs'') := process_due sink db' rest
    (db'', LoopEvent.attempt row.1 row.2.1 :: evs' ++ evs'')

/-- One tick of `check_reminders` (lines 151–171): fetch the due rows,
then process each. -/
def check_reminders (sink : DueRow → SendResult) (db : DB) (now : Int) :
    DB × List LoopEvent :=
  process_due sink db (get_due_reminders db now)

/-- Iterated ticks of the `@tasks.loop` scheduler: each element gives
that tick's sink behaviour and wall-clock reading. -/
def run_ticks (db : DB) : List ((DueRow → SendResult) × Int) → DB
  | [] => db
  | (sink, now) :: rest => run_ticks (check_reminders sink db now).1 rest

/-- The time-resolution steps of `add_reminder` (`database.py` lines
34–36), factored out as the spec's `TimeResolver.resolveDeliveryInstant`:
parse the start string (after the `Z` substitution) and subtract the
lead time in seconds. -/
def resolveDeliveryInstant (tz_env : Int) (start_time_str : String)
    (remind_before_minutes : Int) : Option Int :=
  (fromisoformat (replaceZ start_time_str)).map
    (fun dt => timestamp_int dt tz_env - remind_before_minutes * 60)

/-! A numeric-offset timestamp spelling: every way of writing an event
start instant with an explicit numeric UTC offset, over calendar dates.
`render` produces the concrete string; the delivery-instant theorems
below quantify over all such spellings. -/

/-- Character of a decimal digit. -/
def digitChar (d : Nat) : Char := Char.ofNat (48 + d)

/-- Two-digit rendering of `n < 100`. -/
def render2 (n : Nat) : List Char := [digitChar (n / 10), digitChar (n % 10)]

/-- Four-digit rendering of `n ≤ 9999`. -/
def render4 (n : Nat) : List Char :=
  [digitChar (n / 1000), digitChar (n / 100 % 10), digitChar (n / 10 % 10),
   digitChar (n % 10)]

/-- Rendering of `v < 10 ^ k` as exactly `k` digits, leading zeros kept. -/
def renderDigits : Nat → Nat → List Char
  | 0, _ => []
  | k + 1, v => renderDigits k (v / 10) ++ [digitChar (v % 10)]

/-- The five ways the source strings spell a numeric UTC offset:
`±HH`, `±HHMM`, `±HH:MM`, `±HHMMSS`, `±HH:MM:SS`. -/
inductive OffStyle where
  | hh
  | hhmm
  | hhcmm
  | hhmmss
  | hhcmmss
deriving DecidableEq, Repr

/-- The clock spellings: `HH`, `HH:MM`, `HHMM`, `HH:MM:SS`, `HHMMSS`. -/
inductive ClockStyle where
  | hh
  | hhmm
  | hhmmB
  | hhmmss
  | hhmmssB
deriving DecidableEq, Repr

/-- A timestamp spelling with an explicit numeric UTC offset: the date
(extended or basic), an arbitrary single separator character, the clock
with an optional fraction of 1–6 digits, and the signed offset in one
of the five styles. -/
structure OffsetTs where
  year : Nat
  month : Nat
  day : Nat
  dateBasic : Bool
  sep : Char
  hour : Nat
  minute : Nat
  second : Nat
  clock : ClockStyle
  frac : Option (Nat × Nat)
  negOff : Bool
  offH : Nat
  offM : Nat
  offS : Nat
  style : OffStyle
deriving DecidableEq, Repr

/-- Characters of the date part. -/
def OffsetTs.dateChars (t : OffsetTs) : List Char :=
  if t.dateBasic then render4 t.year ++ (render2 t.month ++ render2 t.day)
  else render4 t.year ++ ('-' :: (render2 t.month ++ ('-' :: render2 t.day)))

/-- Characters of the clock part. -/
def OffsetTs.clockChars (t : OffsetTs) : List Char :=
  match t.clock with
  | .hh => render2 t.hour
  | .hhmm => render2 t.hour ++ (':' :: render2 t.minute)
  | .hhmmB => render2 t.hour ++ render2 t.minute
  | .hhmmss => render2 t.hour ++
      (':' :: (render2 t.minute ++ (':' :: render2 t.second)))
  | .hhmmssB => render2 t.hour ++ (render2 t.minute ++ render2 t.second)

/-- Characters of the fractional-seconds part. -/
def OffsetTs.fracChars (t : OffsetTs) : List Char :=
  match t.frac with
  | none => []
  | some (k, v) => '.' :: renderDigits k v

/-- Characters of the offset part after the sign. -/
def OffsetTs.offTail (t : OffsetTs) : List Char :=
  match t.style with
  | .hh => render2 t.offH
  | .hhmm => render2 t.offH ++ render2 t.offM
  | .hhcmm => render2 t.offH ++ (':' :: render2 t.offM)
  | .hhmmss => render2 t.offH ++ (render2 t.offM ++ render2 t.offS)
  | .hhcmmss => render2 t.offH ++
      (':' :: (render2 t.offM ++ (':' :: render2 t.offS)))

/-- Characters of the offset part. -/
def OffsetTs.offChars (t : OffsetTs) : List Char :=
  (if t.negOff then '-' else '+') :: t.offTail

/-- The rendered timestamp string. -/
def OffsetTs.render (t : OffsetTs) : String :=
  ⟨t.dateChars ++ (t.sep :: ((t.clockChars ++ t.fracChars) ++ t.offChars))⟩

/-- Minute value the parser yields (zero when the clock omits it). -/
def OffsetTs.emin (t : OffsetTs) : Nat :=
  match t.clock with
  | .hh => 0
  | _ => t.minute

/-- Second value the parser yields (zero when the clock omits it). -/
def OffsetTs.esec (t : OffsetTs) : Nat :=
  match t.clock with
  | .hhmmss | .hhmmssB => t.second
  | _ => 0

/-- Microsecond value the parser yields from the fraction. -/
def OffsetTs.eusec (t : OffsetTs) : Nat :=
  match t.frac with
  | none => 0
  | some (k, v) => v * 10 ^ (6 - k)

/-- Whole seconds of the spelled offset (the components the style
renders). -/
def OffsetTs.offSecs (t : OffsetTs) : Nat :=
  match t.style with
  | .hh => t.offH * 3600
  | .hhmm | .hhcmm => t.offH * 3600 + t.offM * 60
  | .hhmmss | .hhcmmss => t.offH * 3600 + t.offM * 60 + t.offS

/-- Signed offset in microseconds. -/
def OffsetTs.offUs (t : OffsetTs) : Int :=
  (if t.negOff then -1 else 1) * ((t.offSecs * 1000000 : Nat) : Int)

/-- The datetime value the spelling denotes. -/
def OffsetTs.parsedDt (t : OffsetTs) : PyDateTime :=
  ⟨t.year, t.month, t.day, t.hour, t.emin, t.esec, t.eusec, some t.offUs⟩

/-- Well-formedness of a spelling: date in range, hour/minute/second in
range, a fraction of 1–6 digits, a separator other than `Z` (which the
`Z` substitution of `add_reminder` would rewrite), offset components of
two digits each with a total below 24 hours. -/
def OffsetTs.valid (t : OffsetTs) : Bool :=
  decide (1 ≤ t.year) && decide (t.year ≤ 9999) &&
  decide (1 ≤ t.month) && decide (t.month ≤ 12) &&
  decide (1 ≤ t.day) && decide (t.day ≤ daysInMonth t.year t.month) &&
  decide (t.sep ≠ 'Z') &&
  decide (t.hour ≤ 23) && decide (t.minute ≤ 59) && decide (t.second ≤ 59) &&
  (match t.frac with
   | none => true
   | some (k, v) => decide (1 ≤ k) && decide (k ≤ 6) && decide (v < 10 ^ k)) &&
  decide (t.offH ≤ 99) && decide (t.offM ≤ 99) && decide (t.offS ≤ 99) &&
  decide (t.offSecs < 86400)

/-- The spelling `2025-06-01T10:00:00+00:00` from the claim. -/
def tsUTC : OffsetTs :=
  ⟨2025, 6, 1, false, 'T', 10, 0, 0, .hhmmss, none, false, 0, 0, 0, .hhcmm⟩

/-- The spelling `2025-06-01T15:30:00+05:30` from the claim, the same
instant written with the India offset. -/
def tsIST : OffsetTs :=
  ⟨2025, 6, 1, false, 'T', 15, 30, 0, .hhmmss, none, false, 5, 30, 0, .hhcmm⟩

/-! Helper lemmas about the store operations. -/

lemma mem_get_due_reminders {db : DB} {now : Int} {tup : DueRow} :
    tup ∈ get_due_reminders db now ↔
      ∃ r, r ∈ db.rows ∧ r.reminder_time ≤ now ∧ dueProj r = tup := by
  simp only [get_due_reminders, List.mem_map, List.mem_filter, decide_eq_true_eq]
  constructor
  · rintro ⟨r, ⟨hr, hle⟩, hproj⟩
    exact ⟨r, hr, hle, hproj⟩
  · rintro ⟨r, hr, hle, hproj⟩
    exact ⟨r, ⟨hr, hle⟩, hproj⟩

lemma mem_delete_reminder {db : DB} {i : Int} {r : Reminder} :
    r ∈ (delete_reminder db i).rows ↔ r ∈ db.rows ∧ r.id ≠ i := by
  simp [delete_reminder, List.mem_filter]

lemma delete_reminder_id_eq {db : DB} {i : Int} (h : ∀ r ∈ db.rows, r.id ≠ i) :
    delete_reminder db i = db := by
  unfold delete_reminder
  have : db.rows.filter (fun r => r.id != i) = db.rows := by
    apply List.filter_eq_self.mpr
    intro r hr
    simpa using h r hr
  simp [this]

lemma pairwise_id_inj {l : List Reminder}
    (h : l.Pairwise (fun a b => a.id ≠ b.id)) :
    ∀ a ∈ l, ∀ b ∈ l, a.id = b.id → a = b := by
  induction l with
  | nil => simp
  | cons x xs ih =>
    rcases List.pairwise_cons.mp h with ⟨hx, hxs⟩
    intro a ha b hb hab
    rcases List.mem_cons.mp ha with ha₁ | ha₂
    · rcases List.mem_cons.mp hb with hb₁ | hb₂
      · exact ha₁.trans hb₁.symm
      · subst ha₁; exact absurd hab (hx b hb₂)
    · rcases List.mem_cons.mp hb with hb₁ | hb₂
      · subst hb₁; exact absurd hab.symm (hx a ha₂)
      · exact ih hxs a ha₂ b hb₂ hab

lemma process_due_rows_subset {sink : DueRow → SendResult} :
    ∀ (due : List DueRow) (db : DB) (r : Reminder),
      r ∈ (process_due sink db due).1.rows → r ∈ db.rows := by
  intro due
  induction due with
  | nil => intro db r h; simpa [process_due] using h
  | cons row rest ih =>
    intro db r h
    cases hs : sink row with
    | sent =>
      simp only [process_due, hs] at h
      exact (mem_delete_reminder.mp (ih _ _ h)).1
    | recipientNotFound =>
      simp only [process_due, hs] at h
      exact (mem_delete_reminder.mp (ih _ _ h)).1
    | transientFailure =>
      simp only [process_due, hs] at h
      exact ih _ _ h

lemma process_due_absent {sink : DueRow → SendResult} {i : Int} :
    ∀ (due : List DueRow) (db : DB), (∀ r ∈ db.rows, r.id ≠ i) →
      ∀ r ∈ (process_due sink db due).1.rows, r.id ≠ i := by
  intro due
  induction due with
  | nil => intro db hdb r h; exact hdb r (by simpa [process_due] using h)
  | cons row rest ih =>
    intro db hdb r h
    cases hs : sink row with
    | sent =>
      simp only [process_due, hs] at h
      exact ih _ (fun r' hr' => hdb r' (mem_delete_reminder.mp hr').1) r h
    | recipientNotFound =>
      simp only [process_due, hs] at h
      exact ih _ (fun r' hr' => hdb r' (mem_delete_reminder.mp hr').1) r h
    | transientFailure =>
      simp only [process_due, hs] at h
      exact ih _ hdb r h

lemma process_due_removes {sink : DueRow → SendResult} {row : DueRow} :
    ∀ (due : List DueRow) (db : DB), row ∈ due →
      sink row ≠ .transientFailure →
      ∀ r ∈ (process_due sink db due).1.rows, r.id ≠ row.1 := by
  intro due
  induction due with
  | nil => intro db h; simp at h
  | cons head rest ih =>
    intro db hmem hsink r hr
    rcases List.mem_cons.mp hmem with rfl | hmem'
    · cases hs : sink row with
      | sent =>
        simp only [process_due, hs] at hr
        exact process_due_absent rest _
          (fun r' hr' => (mem_delete_reminder.mp hr').2) r hr
      | recipientNotFound =>
        simp only [process_due, hs] at hr
        exact process_due_absent rest _
          (fun r' hr' => (mem_delete_reminder.mp hr').2) r hr
      | transientFailure => exact absurd hs hsink
    · cases hs : sink head <;>
        simp only [process_due, hs] at hr <;>
        exact ih _ hmem' hsink r hr

lemma process_due_preserves {sink : DueRow → SendResult} {r : Reminder} :
    ∀ (due : List DueRow) (db : DB), r ∈ db.rows →
      (∀ row ∈ due, sink row ≠ .transientFailure → row.1 ≠ r.id) →
      r ∈ (process_due sink db due).1.rows := by
  intro due
  induction due with
  | nil => intro db hmem _; simpa [process_due] using hmem
  | cons head rest ih =>
    intro db hmem hcond
    cases hs : sink head with
    | sent =>
      simp only [process_due, hs]
      refine ih _ (mem_delete_reminder.mpr ⟨hmem, ?_⟩)
        (fun row hrow => hcond row (List.mem_cons_of_mem _ hrow))
      exact fun h => hcond head (List.mem_cons_self _ _) (by simp [hs]) h.symm
    | recipientNotFound =>
      simp only [process_due, hs]
      refine ih _ (mem_delete_reminder.mpr ⟨hmem, ?_⟩)
        (fun row hrow => hcond row (List.mem_cons_of_mem _ hrow))
      exact fun h => hcond head (List.mem_cons_self _ _) (by simp [hs]) h.symm
    | transientFailure =>
      simp only [process_due, hs]
      exact ih _ hmem (fun row hrow => hcond row (List.mem_cons_of_mem _ hrow))

lemma run_ticks_absent {i : Int} :
    ∀ (ticks : List ((DueRow → SendResult) × Int)) (db : DB),
      (∀ r ∈ db.rows, r.id ≠ i) →
      ∀ r ∈ (run_ticks db ticks).rows, r.id ≠ i := by
  intro ticks
  induction ticks with
  | nil => intro db hdb r h; exact hdb r (by simpa [run_ticks] using h)
  | cons t rest ih =>
    intro db hdb r h
    simp only [run_ticks] at h
    exact ih _ (process_due_absent _ _ hdb) r h

lemma any_key_eq_false {db : DB} {uid : Int} {url : String}
    (hfree : ∀ r ∈ db.rows, ¬(r.user_id = uid ∧ r.contest_url = url)) :
    db.rows.any (fun r => r.user_id == uid && r.contest_url == url) = false := by
  rw [List.any_eq_false]
  intro r hr
  simpa using hfree r hr

lemma add_reminder_fresh {tz_env : Int} {db : DB} {uid : Int}
    {name url ts : String} {lead : Int} {dt : PyDateTime}
    (hparse : fromisoformat (replaceZ ts) = some dt)
    (hfree : ∀ r ∈ db.rows, ¬(r.user_id = uid ∧ r.contest_url = url)) :
    add_reminder tz_env db uid name url ts lead =
      ({ rows := db.rows ++ [⟨db.next_id, uid, name, url,
          timestamp_int dt tz_env - lead * 60⟩],
         next_id := db.next_id + 1 }, .created) := by
  simp [add_reminder, hparse, any_key_eq_false hfree]

lemma add_reminder_dup {tz_env : Int} {db : DB} {uid : Int}
    {name url ts : String} {lead : Int} {dt : PyDateTime}
    (hparse : fromisoformat (replaceZ ts) = some dt)
    (hdup : ∃ r ∈ db.rows, r.user_id = uid ∧ r.contest_url = url) :
    add_reminder tz_env db uid name url ts lead = (db, .alreadyExists) := by
  have hany : db.rows.any (fun r => r.user_id == uid && r.contest_url == url) = true := by
    rw [List.any_eq_true]
    rcases hdup with ⟨r, hr, h₁, h₂⟩
    exact ⟨r, hr, by simp [h₁, h₂]⟩
  simp [add_reminder, hparse, hany]

/-- C1: registering twice with the same `(user_id, contest_url)` key
(other arguments free to differ, as long as both timestamps parse)
creates a record on the first call, is a pure no-op returning
`alreadyExists` on the second, and leaves exactly one stored row with
that key. -/
theorem add_reminder_dedup (tz_env : Int) (db : DB) (uid : Int) (url : String)
    (name₁ name₂ ts₁ ts₂ : String) (lead₁ lead₂ : Int)
    (hfree : ∀ r ∈ db.rows, ¬(r.user_id = uid ∧ r.contest_url = url))
    (h₁ : (fromisoformat (replaceZ ts₁)).isSome = true)
    (h₂ : (fromisoformat (replaceZ ts₂)).isSome = true) :
    (add_reminder tz_env db uid name₁ url ts₁ lead₁).2 = .created ∧
    (add_reminder tz_env db uid name₁ url ts₁ lead₁).1.rows.length =
      db.rows.length + 1 ∧
    add_reminder tz_env (add_reminder tz_env db uid name₁ url ts₁ lead₁).1
        uid name₂ url ts₂ lead₂ =
      ((add_reminder tz_env db uid name₁ url ts₁ lead₁).1, .alreadyExists) ∧
    ((add_reminder tz_env db uid name₁ url ts₁ lead₁).1.rows.filter
      (fun r => r.user_id == uid && r.contest_url == url)).length = 1 := by
  rcases Option.isSome_iff_exists.mp h₁ with ⟨dt₁, hdt₁⟩
  rcases Option.isSome_iff_exists.mp h₂ with ⟨dt₂, hdt₂⟩
  have hfst := @add_reminder_fresh tz_env db uid name₁ url ts₁ lead₁ dt₁ hdt₁ hfree
  rw [hfst]
  have hkey : ∀ r ∈ db.rows,
      (r.user_id == uid && r.contest_url == url) = false := by
    intro r hr
    simpa using hfree r hr
  refine ⟨rfl, by simp, ?_, ?_⟩
  · exact add_reminder_dup hdt₂
      ⟨⟨db.next_id, uid, name₁, url, timestamp_int dt₁ tz_env - lead₁ * 60⟩,
        by simp, rfl, rfl⟩
  · rw [List.filter_append, List.filter_eq_nil_iff.mpr (by
      intro r hr
      simp only [Bool.not_eq_true]
      exact hkey r hr)]
    simp

/-- C2: `get_due_reminders` returns exactly the projections of the rows
whose `reminder_time` is at most `now` — a threshold comparison, so a
row one second past due is returned and a row one second early is not. -/
theorem get_due_reminders_threshold (db : DB) (now : Int)
    (huniq : db.rows.Pairwise (fun a b => a.id ≠ b.id)) :
    (∀ tup : DueRow, tup ∈ get_due_reminders db now ↔
      ∃ r, r ∈ db.rows ∧ r.reminder_time ≤ now ∧ dueProj r = tup) ∧
    (∀ r ∈ db.rows, r.reminder_time = now - 1 →
      dueProj r ∈ get_due_reminders db now) ∧
    (∀ r ∈ db.rows, r.reminder_time = now + 1 →
      dueProj r ∉ get_due_reminders db now) := by
  refine ⟨fun _ => mem_get_due_reminders, ?_, ?_⟩
  · intro r hr ht
    exact mem_get_due_reminders.mpr ⟨r, hr, by omega, rfl⟩
  · intro r hr ht hmem
    rcases mem_get_due_reminders.mp hmem with ⟨r', hr', hle, hproj⟩
    have hid : r'.id = r.id := congrArg Prod.fst hproj
    have : r' = r := pairwise_id_inj huniq r' hr' r hr hid
    subst this
    omega

/-- C5: a successful registration inserts a row whose `reminder_time`
is the parsed event start instant minus `remind_before_minutes * 60`
seconds, which is also the value `resolveDeliveryInstant` returns. -/
theorem add_reminder_deliver_at (tz_env : Int) (db : DB) (uid : Int)
    (name url ts : String) (lead : Int) (dt : PyDateTime)
    (hparse : fromisoformat (replaceZ ts) = some dt)
    (hfree : ∀ r ∈ db.rows, ¬(r.user_id = uid ∧ r.contest_url = url)) :
    add_reminder tz_env db uid name url ts lead =
      ({ rows := db.rows ++ [⟨db.next_id, uid, name, url,
          timestamp_int dt tz_env - lead * 60⟩],
         next_id := db.next_id + 1 }, .created) ∧
    resolveDeliveryInstant tz_env ts lead =
      some (timestamp_int dt tz_env - lead * 60) := by
  exact ⟨add_reminder_fresh hparse hfree, by simp [resolveDeliveryInstant, hparse]⟩

/-- C6: when the event start string does not parse, `add_reminder`
reports `invalidTimestamp` to its caller and leaves the store exactly
as it was — the `ValueError` is raised before any database write. -/
theorem add_reminder_invalid_timestamp (tz_env : Int) (db : DB) (uid : Int)
    (name url ts : String) (lead : Int)
    (hparse : fromisoformat (replaceZ ts) = none) :
    add_reminder tz_env db uid name url ts lead = (db, .invalidTimestamp) := by
  simp [add_reminder, hparse]

/-- C8: `delete_reminder` removes exactly the row with the given id,
keeps every other row, never errors on a missing id (full no-op), and
is idempotent. -/
theorem delete_reminder_spec (db : DB) (i : Int) :
    (∀ r ∈ (delete_reminder db i).rows, r.id ≠ i) ∧
    (∀ r ∈ db.rows, r.id ≠ i → r ∈ (delete_reminder db i).rows) ∧
    (∀ r ∈ (delete_reminder db i).rows, r ∈ db.rows) ∧
    delete_reminder (delete_reminder db i) i = delete_reminder db i ∧
    ((∀ r ∈ db.rows, r.id ≠ i) → delete_reminder db i = db) := by
  refine ⟨fun r hr => (mem_delete_reminder.mp hr).2,
    fun r hr hid => mem_delete_reminder.mpr ⟨hr, hid⟩,
    fun r hr => (mem_delete_reminder.mp hr).1,
    delete_reminder_id_eq (fun r hr => (mem_delete_reminder.mp hr).2),
    delete_reminder_id_eq⟩

/-- C9 counterexample: the delivery-instant computation is not a
function of the two inputs alone — an event start string without a UTC
offset is parsed as a naive datetime, whose `timestamp()` depends on the
process's local timezone, so two environments disagree. -/
theorem resolve_depends_on_local_tz :
    resolveDeliveryInstant 0 "2025-06-01T10:00:00" 15 ≠
      resolveDeliveryInstant 3600 "2025-06-01T10:00:00" 15 := by decide

/-- C9 (amended): for every event start string that carries an explicit
UTC offset after the `Z` substitution (i.e. parses to an offset-aware
datetime), the delivery instant is independent of the local-timezone
environment. -/
theorem resolve_deterministic_aware (tz₁ tz₂ lead : Int) (s : String)
    (dt : PyDateTime) (off : Int)
    (hparse : fromisoformat (replaceZ s) = some dt)
    (haware : dt.tz_offset = some off) :
    resolveDeliveryInstant tz₁ s lead = resolveDeliveryInstant tz₂ s lead := by
  simp [resolveDeliveryInstant, hparse, timestamp_int, epoch_us, haware]

/-- C3: a due reminder whose send attempt fails transiently on tick N is
still stored after the tick and is due again at any later instant; a due
reminder whose send succeeds is removed and no row with its id exists
after any sequence of later ticks. -/
theorem transient_retries_sent_removes (db : DB) (r : Reminder)
    (sink : DueRow → SendResult) (now₁ now₂ : Int)
    (huniq : db.rows.Pairwise (fun a b => a.id ≠ b.id))
    (hmem : r ∈ db.rows) (hdue : r.reminder_time ≤ now₁) (hle : now₁ ≤ now₂) :
    (sink (dueProj r) = .transientFailure →
      r ∈ (check_reminders sink db now₁).1.rows ∧
      dueProj r ∈ get_due_reminders (check_reminders sink db now₁).1 now₂) ∧
    (sink (dueProj r) = .sent →
      ∀ ticks : List ((DueRow → SendResult) × Int),
        ∀ r' ∈ (run_ticks (check_reminders sink db now₁).1 ticks).rows,
          r'.id ≠ r.id) := by
  constructor
  · intro htr
    have hpres : r ∈ (check_reminders sink db now₁).1.rows := by
      simp only [check_reminders]
      apply process_due_preserves _ _ hmem
      intro row hrow hsink hid
      rcases mem_get_due_reminders.mp hrow with ⟨r', hr', _, hproj⟩
      have hid' : r'.id = row.1 := by rw [← hproj]; rfl
      have hrr : r' = r := pairwise_id_inj huniq r' hr' r hmem (hid'.trans hid)
      apply hsink
      rw [← hproj, hrr, htr]
    exact ⟨hpres, mem_get_due_reminders.mpr ⟨r, hpres, le_trans hdue hle, rfl⟩⟩
  · intro hsend ticks
    apply run_ticks_absent
    intro r' hr'
    have hrowmem : dueProj r ∈ get_due_reminders db now₁ :=
      mem_get_due_reminders.mpr ⟨r, hmem, hdue, rfl⟩
    simp only [check_reminders] at hr'
    exact process_due_removes _ _ hrowmem (by simp [hsend]) r' hr'

/-- C4: a due reminder whose send attempt reports the recipient as not
found is removed from the store by the tick, even though no notification
was delivered. -/
theorem recipient_not_found_removes (db : DB) (r : Reminder)
    (sink : DueRow → SendResult) (now : Int)
    (hmem : r ∈ db.rows) (hdue : r.reminder_time ≤ now)
    (hsink : sink (dueProj r) = .recipientNotFound) :
    ∀ r' ∈ (check_reminders sink db now).1.rows, r'.id ≠ r.id := by
  intro r' hr'
  simp only [check_reminders] at hr'
  exact process_due_removes _ _
    (mem_get_due_reminders.mpr ⟨r, hmem, hdue, rfl⟩) (by simp [hsink]) r' hr'

lemma process_due_trace {sink : DueRow → SendResult} :
    ∀ (due : List DueRow) (db : DB) (pre post : List LoopEvent) (i : Int),
      (process_due sink db due).2 = pre ++ LoopEvent.remove i :: post →
      ∃ u, LoopEvent.attempt i u ∈ pre ∧
        ∃ nm url, (i, u, nm, url) ∈ due := by
  intro due
  induction due with
  | nil =>
    intro db pre post i h
    simp only [process_due] at h
    exact absurd h.symm (by simp)
  | cons row rest ih =>
    intro db pre post i h
    cases hs : sink row with
    | sent =>
      simp only [process_due, hs, List.singleton_append] at h
      match pre, h with
      | [], h => simp at h
      | [e], h =>
        rw [List.singleton_append] at h
        obtain ⟨he, h2⟩ := List.cons_eq_cons.mp h
        obtain ⟨he2, _⟩ := List.cons_eq_cons.mp h2
        injection he2 with hi
        subst hi
        subst he
        exact ⟨row.2.1, List.mem_singleton.mpr rfl,
          row.2.2.1, row.2.2.2, List.mem_cons_self _ _⟩
      | e :: e' :: pre'', h =>
        rw [List.cons_append, List.cons_append] at h
        obtain ⟨he, h2⟩ := List.cons_eq_cons.mp h
        obtain ⟨he', h3⟩ := List.cons_eq_cons.mp h2
        rcases ih _ pre'' post i h3 with ⟨u, hu, nm, url, htup⟩
        exact ⟨u, List.mem_cons_of_mem _ (List.mem_cons_of_mem _ hu),
          nm, url, List.mem_cons_of_mem _ htup⟩
    | recipientNotFound =>
      simp only [process_due, hs, List.singleton_append] at h
      match pre, h with
      | [], h => simp at h
      | [e], h =>
        rw [List.singleton_append] at h
        obtain ⟨he, h2⟩ := List.cons_eq_cons.mp h
        obtain ⟨he2, _⟩ := List.cons_eq_cons.mp h2
        injection he2 with hi
        subst hi
        subst he
        exact ⟨row.2.1, List.mem_singleton.mpr rfl,
          row.2.2.1, row.2.2.2, List.mem_cons_self _ _⟩
      | e :: e' :: pre'', h =>
        rw [List.cons_append, List.cons_append] at h
        obtain ⟨he, h2⟩ := List.cons_eq_cons.mp h
        obtain ⟨he', h3⟩ := List.cons_eq_cons.mp h2
        rcases ih _ pre'' post i h3 with ⟨u, hu, nm, url, htup⟩
        exact ⟨u, List.mem_cons_of_mem _ (List.mem_cons_of_mem _ hu),
          nm, url, List.mem_cons_of_mem _ htup⟩
    | transientFailure =>
      simp only [process_due, hs, List.nil_append] at h
      match pre, h with
      | [], h => simp at h
      | e :: pre', h =>
        rw [List.cons_append] at h
        obtain ⟨he, h2⟩ := List.cons_eq_cons.mp h
        rcases ih _ pre' post i h2 with ⟨u, hu, nm, url, htup⟩
        exact ⟨u, List.mem_cons_of_mem _ hu,
          nm, url, List.mem_cons_of_mem _ htup⟩

/-- C7: within one tick of the delivery loop, every removal of a
reminder id from the store is preceded in the tick's event trace by a
notification attempt for that reminder, addressed to the user recorded
in it — no reminder is deleted before an attempt is made. -/
theorem remove_preceded_by_attempt (db : DB) (sink : DueRow → SendResult)
    (now : Int) (pre post : List LoopEvent) (i : Int)
    (h : (check_reminders sink db now).2 = pre ++ LoopEvent.remove i :: post) :
    ∃ u, LoopEvent.attempt i u ∈ pre ∧
      ∃ r, r ∈ db.rows ∧ r.reminder_time ≤ now ∧ r.id = i ∧ r.user_id = u := by
  simp only [check_reminders] at h
  rcases process_due_trace _ _ pre post i h with ⟨u, hu, nm, url, htup⟩
  rcases mem_get_due_reminders.mp htup with ⟨r, hr, hle, hproj⟩
  exact ⟨u, hu, r, hr, hle, congrArg Prod.fst hproj,
    congrArg (fun t => t.2.1) hproj⟩

/-- Witness for C1 at a concrete store and key. -/
theorem add_reminder_dedup_witness :
    (add_reminder 0 ⟨[], 1⟩ 7 "A" "https://x/42" "2030-01-01T00:00:00Z" 15).2 =
      .created ∧
    (add_reminder 0 ⟨[], 1⟩ 7 "A" "https://x/42"
      "2030-01-01T00:00:00Z" 15).1.rows.length = 1 ∧
    add_reminder 0
        (add_reminder 0 ⟨[], 1⟩ 7 "A" "https://x/42" "2030-01-01T00:00:00Z" 15).1
        7 "B" "https://x/42" "2031-05-05T12:00:00Z" 30 =
      ((add_reminder 0 ⟨[], 1⟩ 7 "A" "https://x/42" "2030-01-01T00:00:00Z" 15).1,
        .alreadyExists) ∧
    ((add_reminder 0 ⟨[], 1⟩ 7 "A" "https://x/42"
      "2030-01-01T00:00:00Z" 15).1.rows.filter
      (fun r => r.user_id == 7 && r.contest_url == "https://x/42")).length = 1 :=
  add_reminder_dedup 0 ⟨[], 1⟩ 7 "https://x/42" "A" "B"
    "2030-01-01T00:00:00Z" "2031-05-05T12:00:00Z" 15 30 (by simp) rfl rfl

/-- Witness for C2: a row one second past due is returned, a row one
second early is not. -/
theorem get_due_reminders_threshold_witness :
    dueProj ⟨1, 7, "A", "u", 9⟩ ∈
      get_due_reminders ⟨[⟨1, 7, "A", "u", 9⟩, ⟨2, 8, "B", "v", 11⟩], 3⟩ 10 ∧
    dueProj ⟨2, 8, "B", "v", 11⟩ ∉
      get_due_reminders ⟨[⟨1, 7, "A", "u", 9⟩, ⟨2, 8, "B", "v", 11⟩], 3⟩ 10 :=
  ⟨(get_due_reminders_threshold ⟨[⟨1, 7, "A", "u", 9⟩, ⟨2, 8, "B", "v", 11⟩], 3⟩
      10 (by simp)).2.1 ⟨1, 7, "A", "u", 9⟩ (by simp) (by norm_num),
   (get_due_reminders_threshold ⟨[⟨1, 7, "A", "u", 9⟩, ⟨2, 8, "B", "v", 11⟩], 3⟩
      10 (by simp)).2.2 ⟨2, 8, "B", "v", 11⟩ (by simp) (by norm_num)⟩

/-- Witness for C3: with a transiently failing sink the row survives the
tick and is due again; with a successful sink its id is gone. -/
theorem transient_retries_sent_removes_witness :
    ((⟨1, 7, "A", "u", 9⟩ : Reminder) ∈
      (check_reminders (fun _ => SendResult.transientFailure)
        ⟨[⟨1, 7, "A", "u", 9⟩], 2⟩ 10).1.rows ∧
     dueProj ⟨1, 7, "A", "u", 9⟩ ∈
       get_due_reminders (check_reminders (fun _ => SendResult.transientFailure)
         ⟨[⟨1, 7, "A", "u", 9⟩], 2⟩ 10).1 11) ∧
    (∀ r' ∈ (run_ticks (check_reminders (fun _ => SendResult.sent)
        ⟨[⟨1, 7, "A", "u", 9⟩], 2⟩ 10).1 []).rows, r'.id ≠ 1) :=
  ⟨(transient_retries_sent_removes ⟨[⟨1, 7, "A", "u", 9⟩], 2⟩ ⟨1, 7, "A", "u", 9⟩
      (fun _ => SendResult.transientFailure) 10 11 (by simp) (by simp)
      (by norm_num) (by norm_num)).1 rfl,
   fun r' hr' =>
    (transient_retries_sent_removes ⟨[⟨1, 7, "A", "u", 9⟩], 2⟩ ⟨1, 7, "A", "u", 9⟩
      (fun _ => SendResult.sent) 10 11 (by simp) (by simp)
      (by norm_num) (by norm_num)).2 rfl [] r' hr'⟩

/-- Witness for C4: a recipient-not-found outcome removes the row. -/
theorem recipient_not_found_removes_witness :
    ((check_reminders (fun _ => SendResult.recipientNotFound)
        ⟨[⟨1, 7, "A", "u", 9⟩], 2⟩ 10).1.rows.all (fun r' => r'.id != 1)) = true := by
  rw [List.all_eq_true]
  intro r' hr'
  simpa using recipient_not_found_removes ⟨[⟨1, 7, "A", "u", 9⟩], 2⟩
    ⟨1, 7, "A", "u", 9⟩ (fun _ => SendResult.recipientNotFound) 10
    (by simp) (by norm_num) rfl r' hr'

/-- Witness for C5: registering for an event starting at
2025-06-01T10:00:00Z with a 15-minute lead stores a reminder instant
exactly 15 minutes (900 seconds) before the event start. -/
theorem add_reminder_deliver_at_witness :
    add_reminder 0 ⟨[], 1⟩ 7 "CF" "https://x/42" "2025-06-01T10:00:00Z" 15 =
      (⟨[⟨1, 7, "CF", "https://x/42", 1748772000 - 15 * 60⟩], 2⟩, .created) ∧
    resolveDeliveryInstant 0 "2025-06-01T10:00:00Z" 15 =
      some (1748772000 - 15 * 60) :=
  add_reminder_deliver_at 0 ⟨[], 1⟩ 7 "CF" "https://x/42" "2025-06-01T10:00:00Z"
    15 ⟨2025, 6, 1, 10, 0, 0, 0, some 0⟩ rfl (by simp)

/-- Witness for C6: an unparsable start string leaves the store
untouched and reports `invalidTimestamp`. -/
theorem add_reminder_invalid_timestamp_witness :
    add_reminder 0 ⟨[], 1⟩ 7 "CF" "u" "soon" 15 = (⟨[], 1⟩, .invalidTimestamp) :=
  add_reminder_invalid_timestamp 0 ⟨[], 1⟩ 7 "CF" "u" "soon" 15 rfl

/-- Witness for C7 at a concrete one-row store and a successful send. -/
theorem remove_preceded_by_attempt_witness :
    ∃ u, LoopEvent.attempt 1 u ∈ [LoopEvent.attempt 1 7] ∧
      ∃ r, r ∈ ([⟨1, 7, "A", "u", 9⟩] : List Reminder) ∧
        r.reminder_time ≤ 10 ∧ r.id = 1 ∧ r.user_id = u :=
  remove_preceded_by_attempt ⟨[⟨1, 7, "A", "u", 9⟩], 2⟩
    (fun _ => SendResult.sent) 10 [LoopEvent.attempt 1 7] [] 1 rfl

/-- Witness for C8: double deletion equals single deletion, and deleting
an absent id is a no-op. -/
theorem delete_reminder_spec_witness :
    delete_reminder (delete_reminder ⟨[⟨1, 7, "A", "u", 9⟩], 2⟩ 1) 1 =
      delete_reminder ⟨[⟨1, 7, "A", "u", 9⟩], 2⟩ 1 ∧
    delete_reminder ⟨[⟨1, 7, "A", "u", 9⟩], 2⟩ 5 = ⟨[⟨1, 7, "A", "u", 9⟩], 2⟩ :=
  ⟨(delete_reminder_spec ⟨[⟨1, 7, "A", "u", 9⟩], 2⟩ 1).2.2.2.1,
   (delete_reminder_spec ⟨[⟨1, 7, "A", "u", 9⟩], 2⟩ 5).2.2.2.2 (by decide)⟩

/-- Witness for the amended C9: with the `Z` (UTC) suffix the resolved
instant is the same in two different local-timezone environments. -/
theorem resolve_deterministic_aware_witness :
    resolveDeliveryInstant 0 "2025-06-01T10:00:00Z" 15 =
      resolveDeliveryInstant 3600 "2025-06-01T10:00:00Z" 15 :=
  resolve_deterministic_aware 0 3600 15 "2025-06-01T10:00:00Z"
    ⟨2025, 6, 1, 10, 0, 0, 0, some 0⟩ 0 rfl rfl

lemma digitChar_spec (d : Nat) (h : d < 10) :
    digitVal (digitChar d) = some d ∧ (digitChar d).isDigit = true ∧
    (digitChar d).toNat = 48 + d ∧
    digitChar d ≠ ':' ∧ digitChar d ≠ '.' ∧ digitChar d ≠ ',' ∧
    digitChar d ≠ '+' ∧ digitChar d ≠ '-' ∧ digitChar d ≠ 'Z' ∧
    digitChar d ≠ 'W' := by
  interval_cases d <;> decide

lemma read2_render2 (n : Nat) (h : n < 100) (rest : List Char) :
    read2 (render2 n ++ rest) = some (n, rest) := by
  have h1 := (digitChar_spec (n / 10) (by omega)).1
  have h2 := (digitChar_spec (n % 10) (by omega)).1
  simp only [render2, List.cons_append, List.nil_append, read2, h1, h2,
    Option.bind_eq_bind, Option.some_bind]
  have : n / 10 * 10 + n % 10 = n := by omega
  simp [this]

lemma read4_render4 (n : Nat) (h : n ≤ 9999) (rest : List Char) :
    read4 (render4 n ++ rest) = some (n, rest) := by
  have h1 := (digitChar_spec (n / 1000) (by omega)).1
  have h2 := (digitChar_spec (n / 100 % 10) (by omega)).1
  have h3 := (digitChar_spec (n / 10 % 10) (by omega)).1
  have h4 := (digitChar_spec (n % 10) (by omega)).1
  simp only [render4, List.cons_append, List.nil_append, read4, h1, h2, h3, h4,
    Option.bind_eq_bind, Option.some_bind]
  have : n / 1000 * 1000 + n / 100 % 10 * 100 + n / 10 % 10 * 10 + n % 10 = n := by
    omega
  simp [this]

lemma renderDigits_len (k v : Nat) : (renderDigits k v).length = k := by
  induction k generalizing v with
  | zero => simp [renderDigits]
  | succ k ih => simp [renderDigits, ih]

lemma renderDigits_mem (k v : Nat) :
    ∀ c ∈ renderDigits k v, ∃ d, d < 10 ∧ c = digitChar d := by
  induction k generalizing v with
  | zero => simp [renderDigits]
  | succ k ih =>
    intro c hc
    rw [renderDigits] at hc
    rcases List.mem_append.mp hc with hc' | hc'
    · exact ih (v / 10) c hc'
    · exact ⟨v % 10, by omega, by simpa using hc'⟩

lemma digitsToNat_renderDigits (k v : Nat) (h : v < 10 ^ k) :
    digitsToNat (renderDigits k v) = v := by
  induction k generalizing v with
  | zero =>
    have : v = 0 := by simpa using h
    simp [renderDigits, digitsToNat, this]
  | succ k ih =>
    rw [renderDigits]
    unfold digitsToNat
    rw [List.foldl_append]
    have hv : v / 10 < 10 ^ k := by
      have : (10 : Nat) ^ (k + 1) = 10 ^ k * 10 := by ring
      omega
    have hrec := ih (v / 10) hv
    unfold digitsToNat at hrec
    rw [hrec]
    have ht := (digitChar_spec (v % 10) (by omega)).2.2.1
    simp [List.foldl, ht]
    omega

lemma parseFracC_renderDigits (k v : Nat) (h1 : 1 ≤ k) (h2 : k ≤ 6)
    (h3 : v < 10 ^ k) :
    parseFracC (renderDigits k v) = some (v * 10 ^ (6 - k)) := by
  have hlen : (renderDigits k v).length = k := renderDigits_len k v
  have hne : renderDigits k v ≠ [] := by
    intro he
    rw [he] at hlen
    simp at hlen
    omega
  have hall : (renderDigits k v).all (fun c => c.isDigit) = true := by
    rw [List.all_eq_true]
    intro c hc
    rcases renderDigits_mem k v c hc with ⟨d, hd, rfl⟩
    exact (digitChar_spec d hd).2.1
  unfold parseFracC
  rw [if_pos ⟨hne, hall⟩]
  have htake : (renderDigits k v).take 6 = renderDigits k v :=
    List.take_of_length_le (by omega)
  rw [htake, hlen, digitsToNat_renderDigits k v h3]

lemma renderDigits_ne_nil {k v : Nat} (hk : 1 ≤ k) : renderDigits k v ≠ [] := by
  intro h
  have := renderDigits_len k v
  rw [h] at this
  simp at this
  omega

lemma render2_cons (n : Nat) (l : List Char) :
    render2 n ++ l = digitChar (n / 10) :: digitChar (n % 10) :: l := by
  simp [render2]

lemma psf_none (s : Nat) (hs : s ≤ 99) (hsep : Bool) :
    parse_sec_frac hsep (render2 s) = some (s, 0, false) := by
  have h1 := (digitChar_spec (s / 10) (by omega)).1
  have h2 := (digitChar_spec (s % 10) (by omega)).1
  unfold parse_sec_frac
  simp only [render2, read2, h1, h2, Option.bind_eq_bind, Option.some_bind]
  have : s / 10 * 10 + s % 10 = s := by omega
  simp [this]

lemma psf_frac (s k v : Nat) (hs : s ≤ 99) (h1 : 1 ≤ k) (h2 : k ≤ 6)
    (h3 : v < 10 ^ k) (hsep : Bool) :
    parse_sec_frac hsep (render2 s ++ '.' :: renderDigits k v) =
      some (s, v * 10 ^ (6 - k), false) := by
  rcases hds : renderDigits k v with _ | ⟨d0, ds⟩
  · exact absurd hds (renderDigits_ne_nil h1)
  have e1 := (digitChar_spec (s / 10) (by omega)).1
  have e2 := (digitChar_spec (s % 10) (by omega)).1
  have hfr := parseFracC_renderDigits k v h1 h2 h3
  rw [hds] at hfr
  unfold parse_sec_frac
  simp only [render2_cons, read2, e1, e2, Option.bind_eq_bind, Option.some_bind,
    hds]
  have : s / 10 * 10 + s % 10 = s := by omega
  simp [this, hfr]

lemma psf_chars (t : OffsetTs) (hs : t.second ≤ 99)
    (hf : ∀ k v, t.frac = some (k, v) → 1 ≤ k ∧ k ≤ 6 ∧ v < 10 ^ k)
    (hsep : Bool) :
    parse_sec_frac hsep
      (digitChar (t.second / 10) :: digitChar (t.second % 10) :: t.fracChars) =
      some (t.second, t.eusec, false) := by
  rcases hfr : t.frac with _ | ⟨k, v⟩
  · simpa [OffsetTs.fracChars, OffsetTs.eusec, hfr, render2] using
      psf_none t.second hs hsep
  · obtain ⟨h1, h2, h3⟩ := hf k v hfr
    simpa [OffsetTs.fracChars, OffsetTs.eusec, hfr, render2] using
      psf_frac t.second k v hs h1 h2 h3 hsep

lemma parse_time_c_clock (t : OffsetTs) (hh : t.hour ≤ 23) (hmi : t.minute ≤ 59)
    (hs : t.second ≤ 59)
    (hf : ∀ k v, t.frac = some (k, v) → 1 ≤ k ∧ k ≤ 6 ∧ v < 10 ^ k) :
    parse_time_c (t.clockChars ++ t.fracChars) =
      some (t.hour, t.emin, t.esec, t.eusec, false) := by
  have eh1 := (digitChar_spec (t.hour / 10) (by omega)).1
  have eh2 := (digitChar_spec (t.hour % 10) (by omega)).1
  have em1 := digitChar_spec (t.minute / 10) (by omega)
  have em2 := (digitChar_spec (t.minute % 10) (by omega)).1
  have es1 := digitChar_spec (t.second / 10) (by omega)
  have hmm : t.minute / 10 * 10 + t.minute % 10 = t.minute := by omega
  have hhh : t.hour / 10 * 10 + t.hour % 10 = t.hour := by omega
  rcases hc : t.clock
  case hh =>
    rcases hfr : t.frac with _ | ⟨k, v⟩
    · simp [OffsetTs.clockChars, OffsetTs.fracChars, OffsetTs.emin, OffsetTs.esec,
        OffsetTs.eusec, hc, hfr, parse_time_c, render2, read2, eh1, eh2, hhh]
    · obtain ⟨h1, h2, h3⟩ := hf k v hfr
      rcases hds : renderDigits k v with _ | ⟨d0, ds⟩
      · exact absurd hds (renderDigits_ne_nil h1)
      have hfrc := parseFracC_renderDigits k v h1 h2 h3
      rw [hds] at hfrc
      simp [OffsetTs.clockChars, OffsetTs.fracChars, OffsetTs.emin, OffsetTs.esec,
        OffsetTs.eusec, hc, hfr, hds, parse_time_c, render2, read2, eh1, eh2, hhh,
        hfrc]
  case hhmm =>
    rcases hfr : t.frac with _ | ⟨k, v⟩
    · simp [OffsetTs.clockChars, OffsetTs.fracChars, OffsetTs.emin, OffsetTs.esec,
        OffsetTs.eusec, hc, hfr, parse_time_c, render2, read2, eh1, eh2, em1.1, em2,
        hhh, hmm]
    · obtain ⟨h1, h2, h3⟩ := hf k v hfr
      rcases hds : renderDigits k v with _ | ⟨d0, ds⟩
      · exact absurd hds (renderDigits_ne_nil h1)
      have hfrc := parseFracC_renderDigits k v h1 h2 h3
      rw [hds] at hfrc
      simp [OffsetTs.clockChars, OffsetTs.fracChars, OffsetTs.emin, OffsetTs.esec,
        OffsetTs.eusec, hc, hfr, hds, parse_time_c, render2, read2, eh1, eh2, em1.1,
        em2, hhh, hmm, hfrc]
  case hhmmB =>
    rcases hfr : t.frac with _ | ⟨k, v⟩
    · simp [OffsetTs.clockChars, OffsetTs.fracChars, OffsetTs.emin, OffsetTs.esec,
        OffsetTs.eusec, hc, hfr, parse_time_c, render2, read2, eh1, eh2, em1.1, em2,
        hhh, hmm, em1.2.2.2.1, em1.2.2.2.2.1, em1.2.2.2.2.2.1]
    · obtain ⟨h1, h2, h3⟩ := hf k v hfr
      rcases hds : renderDigits k v with _ | ⟨d0, ds⟩
      · exact absurd hds (renderDigits_ne_nil h1)
      have hfrc := parseFracC_renderDigits k v h1 h2 h3
      rw [hds] at hfrc
      simp [OffsetTs.clockChars, OffsetTs.fracChars, OffsetTs.emin, OffsetTs.esec,
        OffsetTs.eusec, hc, hfr, hds, parse_time_c, render2, read2, eh1, eh2, em1.1,
        em2, hhh, hmm, hfrc, em1.2.2.2.1, em1.2.2.2.2.1, em1.2.2.2.2.2.1]
  case hhmmss =>
    have hpsf := psf_chars t (by omega) hf true
    simp [OffsetTs.clockChars, OffsetTs.emin, OffsetTs.esec, hc, parse_time_c,
      render2, read2, eh1, eh2, em1.1, em2, hhh, hmm, hpsf]
  case hhmmssB =>
    have hpsf := psf_chars t (by omega) hf false
    simp [OffsetTs.clockChars, OffsetTs.emin, OffsetTs.esec, hc, parse_time_c,
      render2, read2, eh1, eh2, em1.1, em2, hhh, hmm, hpsf,
      em1.2.2.2.1, em1.2.2.2.2.1, em1.2.2.2.2.2.1,
      es1.2.2.2.1, es1.2.2.2.2.1, es1.2.2.2.2.2.1]

lemma daysInMonth_le (y m : Nat) : daysInMonth y m ≤ 31 := by
  unfold daysInMonth
  split_ifs <;> omega

lemma parse_isodate_c_render (t : OffsetTs) (hy1 : 1 ≤ t.year)
    (hy2 : t.year ≤ 9999) (hm1 : 1 ≤ t.month) (hm2 : t.month ≤ 12)
    (hd1 : 1 ≤ t.day) (hd2 : t.day ≤ daysInMonth t.year t.month) :
    parse_isodate_c t.dateChars = some (t.year, t.month, t.day) := by
  have hdm := daysInMonth_le t.year t.month
  have em1 := digitChar_spec (t.month / 10) (by omega)
  have em2 := (digitChar_spec (t.month % 10) (by omega)).1
  have ed1 := digitChar_spec (t.day / 10) (by omega)
  have ed2 := (digitChar_spec (t.day % 10) (by omega)).1
  have hmm : t.month / 10 * 10 + t.month % 10 = t.month := by omega
  have hdd : t.day / 10 * 10 + t.day % 10 = t.day := by omega
  rcases hb : t.dateBasic
  · have hdc : t.dateChars = render4 t.year ++
        ('-' :: (render2 t.month ++ ('-' :: render2 t.day))) := by
      simp [OffsetTs.dateChars, hb]
    unfold parse_isodate_c
    rw [hdc, read4_render4 t.year hy2]
    simp only [render2, List.cons_append, List.nil_append, Option.bind_eq_bind,
      Option.pure_def, Option.some_bind]
    rw [if_pos hy1]
    split
    · rename_i heq
      simp at heq
      exact absurd heq.1 em1.2.2.2.2.2.2.2.2.2
    · rename_i r1 heq
      simp only [List.cons.injEq, true_and] at heq
      subst heq
      simp only [read2, em1.1, em2, ed1.1, ed2, Option.bind_eq_bind,
        Option.pure_def, Option.some_bind, hmm, hdd]
      rw [if_pos ⟨trivial, hm1, hm2, hd1, hd2⟩]
    · rename_i heq
      simp at heq
    · rename_i hne1 hne2 hne3
      exact ((hne2 _) rfl).elim
  · have hdc : t.dateChars = render4 t.year ++
        (render2 t.month ++ render2 t.day) := by
      simp [OffsetTs.dateChars, hb]
    unfold parse_isodate_c
    rw [hdc, read4_render4 t.year hy2]
    simp only [render2, List.cons_append, List.nil_append, Option.bind_eq_bind,
      Option.pure_def, Option.some_bind]
    rw [if_pos hy1]
    split
    · rename_i heq
      simp at heq
      exact absurd heq.1 em1.2.2.2.2.2.2.2.1
    · rename_i heq
      simp at heq
      exact absurd heq.1 em1.2.2.2.2.2.2.2.1
    · rename_i heq
      simp at heq
      exact absurd heq.1 em1.2.2.2.2.2.2.2.2.2
    · simp only [read2, em1.1, em2, Option.bind_eq_bind, Option.pure_def,
        Option.some_bind, hmm]
      split
      · rename_i heq
        simp at heq
        exact absurd heq.1 ed1.2.2.2.2.2.2.2.1
      · simp [ed1.1, ed2, hdd, hm1, hm2, hd1, hd2]

lemma parse_tz_c_off (t : OffsetTs) (hoh : t.offH ≤ 99) (hom : t.offM ≤ 99)
    (hos : t.offS ≤ 99) (hbound : t.offSecs < 86400) (sgn : Char) :
    parse_tz_c sgn t.offTail =
      some (if t.offSecs = 0 then 0
        else (if sgn = '-' then -1 else 1) *
          ((t.offSecs * 1000000 : Nat) : Int)) := by
  have eh1 := (digitChar_spec (t.offH / 10) (by omega)).1
  have eh2 := (digitChar_spec (t.offH % 10) (by omega)).1
  have em1 := digitChar_spec (t.offM / 10) (by omega)
  have em2 := (digitChar_spec (t.offM % 10) (by omega)).1
  have es1 := digitChar_spec (t.offS / 10) (by omega)
  have es2 := (digitChar_spec (t.offS % 10) (by omega)).1
  have hh' : t.offH / 10 * 10 + t.offH % 10 = t.offH := by omega
  have hm' : t.offM / 10 * 10 + t.offM % 10 = t.offM := by omega
  have hs' : t.offS / 10 * 10 + t.offS % 10 = t.offS := by omega
  rcases hsty : t.style
  case hh =>
    have hsecs : t.offSecs = t.offH * 3600 := by simp [OffsetTs.offSecs, hsty]
    have hpt : parse_time_c (render2 t.offH) = some (t.offH, 0, 0, 0, false) := by
      simp [parse_time_c, render2, read2, eh1, eh2, hh']
    have hot : t.offTail = render2 t.offH := by simp [OffsetTs.offTail, hsty]
    rw [hot]
    unfold parse_tz_c
    rw [hpt]
    simp only [Option.bind_eq_bind]
    simp only [Option.some_bind]
    simp only [Bool.false_eq_true]
    simp only [if_false]
    rw [show t.offH * 3600 + 0 * 60 + 0 = t.offSecs from by omega]
    rw [if_pos (by omega)]
    simp
  case hhmm =>
    have hsecs : t.offSecs = t.offH * 3600 + t.offM * 60 := by
      simp [OffsetTs.offSecs, hsty]
    have hpt : parse_time_c (render2 t.offH ++ render2 t.offM) =
        some (t.offH, t.offM, 0, 0, false) := by
      simp [parse_time_c, render2, read2, eh1, eh2, em1.1, em2, hh', hm',
        em1.2.2.2.1, em1.2.2.2.2.1, em1.2.2.2.2.2.1]
    have hot : t.offTail = render2 t.offH ++ render2 t.offM := by
      simp [OffsetTs.offTail, hsty]
    rw [hot]
    unfold parse_tz_c
    rw [hpt]
    simp only [Option.bind_eq_bind]
    simp only [Option.some_bind]
    simp only [Bool.false_eq_true]
    simp only [if_false]
    rw [show t.offH * 3600 + t.offM * 60 + 0 = t.offSecs from by omega]
    rw [if_pos (by omega)]
    simp
  case hhcmm =>
    have hsecs : t.offSecs = t.offH * 3600 + t.offM * 60 := by
      simp [OffsetTs.offSecs, hsty]
    have hpt : parse_time_c (render2 t.offH ++ (':' :: render2 t.offM)) =
        some (t.offH, t.offM, 0, 0, false) := by
      simp [parse_time_c, render2, read2, eh1, eh2, em1.1, em2, hh', hm']
    have hot : t.offTail = render2 t.offH ++ (':' :: render2 t.offM) := by
      simp [OffsetTs.offTail, hsty]
    rw [hot]
    unfold parse_tz_c
    rw [hpt]
    simp only [Option.bind_eq_bind]
    simp only [Option.some_bind]
    simp only [Bool.false_eq_true]
    simp only [if_false]
    rw [show t.offH * 3600 + t.offM * 60 + 0 = t.offSecs from by omega]
    rw [if_pos (by omega)]
    simp
  case hhmmss =>
    have hsecs : t.offSecs = t.offH * 3600 + t.offM * 60 + t.offS := by
      simp [OffsetTs.offSecs, hsty]
    have hpt : parse_time_c
        (render2 t.offH ++ (render2 t.offM ++ render2 t.offS)) =
        some (t.offH, t.offM, t.offS, 0, false) := by
      simp [parse_time_c, parse_sec_frac, render2, read2, eh1, eh2, em1.1, em2,
        es1.1, es2, hh', hm', hs', em1.2.2.2.1, em1.2.2.2.2.1, em1.2.2.2.2.2.1,
        es1.2.2.2.1, es1.2.2.2.2.1, es1.2.2.2.2.2.1]
    have hot : t.offTail = render2 t.offH ++ (render2 t.offM ++ render2 t.offS) := by
      simp [OffsetTs.offTail, hsty]
    rw [hot]
    unfold parse_tz_c
    rw [hpt]
    simp only [Option.bind_eq_bind]
    simp only [Option.some_bind]
    simp only [Bool.false_eq_true]
    simp only [if_false]
    rw [show t.offH * 3600 + t.offM * 60 + t.offS = t.offSecs from by omega]
    rw [if_pos (by omega)]
    simp
  case hhcmmss =>
    have hsecs : t.offSecs = t.offH * 3600 + t.offM * 60 + t.offS := by
      simp [OffsetTs.offSecs, hsty]
    have hpt : parse_time_c (render2 t.offH ++
        (':' :: (render2 t.offM ++ (':' :: render2 t.offS)))) =
        some (t.offH, t.offM, t.offS, 0, false) := by
      simp [parse_time_c, parse_sec_frac, render2, read2, eh1, eh2, em1.1, em2,
        es1.1, es2, hh', hm', hs']
    have hot : t.offTail = render2 t.offH ++
        (':' :: (render2 t.offM ++ (':' :: render2 t.offS))) := by
      simp [OffsetTs.offTail, hsty]
    rw [hot]
    unfold parse_tz_c
    rw [hpt]
    simp only [Option.bind_eq_bind]
    simp only [Option.some_bind]
    simp only [Bool.false_eq_true]
    simp only [if_false]
    rw [show t.offH * 3600 + t.offM * 60 + t.offS = t.offSecs from by omega]
    rw [if_pos (by omega)]
    simp

lemma takeWhile_append_cons {p : Char → Bool} (a : List Char) (x : Char)
    (l : List Char) (ha : ∀ c ∈ a, p c = true) (hx : p x = false) :
    (a ++ x :: l).takeWhile p = a ∧ (a ++ x :: l).dropWhile p = x :: l := by
  induction a with
  | nil => simp [List.takeWhile_cons, List.dropWhile_cons, hx]
  | cons c a ih =>
    have hc : p c = true := ha c (List.mem_cons_self _ _)
    have hrec := ih (fun c' hc' => ha c' (List.mem_cons_of_mem _ hc'))
    simp [List.takeWhile_cons, List.dropWhile_cons, hc, hrec.1, hrec.2]

lemma render2_mem (n : Nat) (hn : n ≤ 99) :
    ∀ c ∈ render2 n, ∃ d, d < 10 ∧ c = digitChar d := by
  intro c hc
  simp only [render2, List.mem_cons, List.not_mem_nil, or_false] at hc
  rcases hc with rfl | rfl
  · exact ⟨n / 10, by omega, rfl⟩
  · exact ⟨n % 10, by omega, rfl⟩

lemma clock_frac_classify (t : OffsetTs) (hh : t.hour ≤ 99) (hm : t.minute ≤ 99)
    (hs : t.second ≤ 99) :
    ∀ c ∈ t.clockChars ++ t.fracChars,
      (∃ d, d < 10 ∧ c = digitChar d) ∨ c = ':' ∨ c = '.' := by
  intro c hcm
  rcases List.mem_append.mp hcm with h | h
  · rcases hcl : t.clock <;> rw [OffsetTs.clockChars, hcl] at h
    case hh => exact Or.inl (render2_mem t.hour (by omega) c h)
    case hhmm =>
      rcases List.mem_append.mp h with h' | h'
      · exact Or.inl (render2_mem t.hour (by omega) c h')
      · rcases List.mem_cons.mp h' with rfl | h''
        · exact Or.inr (Or.inl rfl)
        · exact Or.inl (render2_mem t.minute (by omega) c h'')
    case hhmmB =>
      rcases List.mem_append.mp h with h' | h'
      · exact Or.inl (render2_mem t.hour (by omega) c h')
      · exact Or.inl (render2_mem t.minute (by omega) c h')
    case hhmmss =>
      rcases List.mem_append.mp h with h' | h'
      · exact Or.inl (render2_mem t.hour (by omega) c h')
      · rcases List.mem_cons.mp h' with rfl | h''
        · exact Or.inr (Or.inl rfl)
        · rcases List.mem_append.mp h'' with h3 | h3
          · exact Or.inl (render2_mem t.minute (by omega) c h3)
          · rcases List.mem_cons.mp h3 with rfl | h4
            · exact Or.inr (Or.inl rfl)
            · exact Or.inl (render2_mem t.second (by omega) c h4)
    case hhmmssB =>
      rcases List.mem_append.mp h with h' | h'
      · exact Or.inl (render2_mem t.hour (by omega) c h')
      · rcases List.mem_append.mp h' with h'' | h''
        · exact Or.inl (render2_mem t.minute (by omega) c h'')
        · exact Or.inl (render2_mem t.second (by omega) c h'')
  · rcases hfr : t.frac with _ | ⟨k, v⟩
    · rw [OffsetTs.fracChars, hfr] at h
      simp at h
    · rw [OffsetTs.fracChars, hfr] at h
      rcases List.mem_cons.mp h with rfl | h'
      · exact Or.inr (Or.inr rfl)
      · exact Or.inl (renderDigits_mem k v c h')

lemma parse_isotime_c_render (t : OffsetTs)
    (hh : t.hour ≤ 23) (hm : t.minute ≤ 59) (hs : t.second ≤ 59)
    (hf : ∀ k v, t.frac = some (k, v) → 1 ≤ k ∧ k ≤ 6 ∧ v < 10 ^ k)
    (hoh : t.offH ≤ 99) (hom : t.offM ≤ 99) (hos : t.offS ≤ 99)
    (hbound : t.offSecs < 86400) :
    parse_isotime_c ((t.clockChars ++ t.fracChars) ++ t.offChars) =
      some (t.hour, t.emin, t.esec, t.eusec, some t.offUs) := by
  have hclassify := clock_frac_classify t (by omega) (by omega) (by omega)
  have hclock := parse_time_c_clock t hh hm hs hf
  have htz := parse_tz_c_off t hoh hom hos hbound
  have hall : ∀ c ∈ t.clockChars ++ t.fracChars,
      (fun c => decide ¬(c = '+' ∨ c = '-' ∨ c = 'Z')) c = true := by
    intro c hc
    rcases hclassify c hc with ⟨d, hd, rfl⟩ | rfl | rfl
    · have := digitChar_spec d hd
      simp [this.2.2.2.2.2.2.1, this.2.2.2.2.2.2.2.1, this.2.2.2.2.2.2.2.2.1]
    · simp
    · simp
  rcases hneg : t.negOff
  · have hoc : t.offChars = '+' :: t.offTail := by
      simp [OffsetTs.offChars, hneg]
    rw [hoc]
    have hsplit := takeWhile_append_cons (t.clockChars ++ t.fracChars) '+'
      t.offTail hall (by simp)
    unfold parse_isotime_c
    simp only [hsplit.1, hsplit.2, hclock, Option.bind_eq_bind, Option.some_bind]
    split
    · rename_i heq
      simp at heq
    · rename_i heq
      simp at heq
    · rename_i sign tzcs heq
      simp only [List.cons.injEq] at heq
      obtain ⟨rfl, rfl⟩ := heq
      rw [htz '+']
      by_cases h0 : t.offSecs = 0 <;>
        simp [OffsetTs.offUs, hneg, h0]
  · have hoc : t.offChars = '-' :: t.offTail := by
      simp [OffsetTs.offChars, hneg]
    rw [hoc]
    have hsplit := takeWhile_append_cons (t.clockChars ++ t.fracChars) '-'
      t.offTail hall (by simp)
    unfold parse_isotime_c
    simp only [hsplit.1, hsplit.2, hclock, Option.bind_eq_bind, Option.some_bind]
    split
    · rename_i heq
      simp at heq
    · rename_i heq
      simp at heq
    · rename_i sign tzcs heq
      simp only [List.cons.injEq] at heq
      obtain ⟨rfl, rfl⟩ := heq
      rw [htz '-']
      by_cases h0 : t.offSecs = 0 <;>
        simp [OffsetTs.offUs, hneg, h0]

lemma emin_le (t : OffsetTs) (hm : t.minute ≤ 59) : t.emin ≤ 59 := by
  unfold OffsetTs.emin
  split <;> omega

lemma esec_le (t : OffsetTs) (hs : t.second ≤ 59) : t.esec ≤ 59 := by
  unfold OffsetTs.esec
  split <;> omega

lemma dateChars_ext (t : OffsetTs) (hb : t.dateBasic = false) :
    t.dateChars = digitChar (t.year / 1000) :: digitChar (t.year / 100 % 10) ::
      digitChar (t.year / 10 % 10) :: digitChar (t.year % 10) :: '-' ::
      digitChar (t.month / 10) :: digitChar (t.month % 10) :: '-' ::
      digitChar (t.day / 10) :: digitChar (t.day % 10) :: [] := by
  simp [OffsetTs.dateChars, hb, render4, render2]

lemma dateChars_basic (t : OffsetTs) (hb : t.dateBasic = true) :
    t.dateChars = digitChar (t.year / 1000) :: digitChar (t.year / 100 % 10) ::
      digitChar (t.year / 10 % 10) :: digitChar (t.year % 10) ::
      digitChar (t.month / 10) :: digitChar (t.month % 10) ::
      digitChar (t.day / 10) :: digitChar (t.day % 10) :: [] := by
  simp [OffsetTs.dateChars, hb, render4, render2]

lemma findSep_render (t : OffsetTs) (hm2 : t.month ≤ 12) (rest : List Char) :
    findSep (t.dateChars ++ t.sep :: rest) = some t.dateChars.length := by
  have em1 := digitChar_spec (t.month / 10) (by omega)
  rcases hb : t.dateBasic
  · rw [dateChars_ext t hb]
    unfold findSep
    simp [List.get?, em1.2.2.2.2.2.2.2.2.2]
  · rw [dateChars_basic t hb]
    unfold findSep
    simp [List.get?, em1.2.2.2.2.2.2.2.1, em1.2.2.2.2.2.2.2.2.2]

lemma render4_mem (n : Nat) (hn : n ≤ 9999) :
    ∀ c ∈ render4 n, ∃ d, d < 10 ∧ c = digitChar d := by
  intro c hc
  simp only [render4, List.mem_cons, List.not_mem_nil, or_false] at hc
  rcases hc with rfl | rfl | rfl | rfl
  · exact ⟨n / 1000, by omega, rfl⟩
  · exact ⟨n / 100 % 10, by omega, rfl⟩
  · exact ⟨n / 10 % 10, by omega, rfl⟩
  · exact ⟨n % 10, by omega, rfl⟩

lemma offTail_classify (t : OffsetTs) (hoh : t.offH ≤ 99) (hom : t.offM ≤ 99)
    (hos : t.offS ≤ 99) :
    ∀ c ∈ t.offTail, (∃ d, d < 10 ∧ c = digitChar d) ∨ c = ':' := by
  intro c h
  rcases hsty : t.style <;> rw [OffsetTs.offTail, hsty] at h
  case hh => exact Or.inl (render2_mem t.offH (by omega) c h)
  case hhmm =>
    rcases List.mem_append.mp h with h' | h'
    · exact Or.inl (render2_mem t.offH (by omega) c h')
    · exact Or.inl (render2_mem t.offM (by omega) c h')
  case hhcmm =>
    rcases List.mem_append.mp h with h' | h'
    · exact Or.inl (render2_mem t.offH (by omega) c h')
    · rcases List.mem_cons.mp h' with rfl | h''
      · exact Or.inr rfl
      · exact Or.inl (render2_mem t.offM (by omega) c h'')
  case hhmmss =>
    rcases List.mem_append.mp h with h' | h'
    · exact Or.inl (render2_mem t.offH (by omega) c h')
    · rcases List.mem_append.mp h' with h'' | h''
      · exact Or.inl (render2_mem t.offM (by omega) c h'')
      · exact Or.inl (render2_mem t.offS (by omega) c h'')
  case hhcmmss =>
    rcases List.mem_append.mp h with h' | h'
    · exact Or.inl (render2_mem t.offH (by omega) c h')
    · rcases List.mem_cons.mp h' with rfl | h''
      · exact Or.inr rfl
      · rcases List.mem_append.mp h'' with h3 | h3
        · exact Or.inl (render2_mem t.offM (by omega) c h3)
        · rcases List.mem_cons.mp h3 with rfl | h4
          · exact Or.inr rfl
          · exact Or.inl (render2_mem t.offS (by omega) c h4)

lemma render_no_Z (t : OffsetTs) (hv : t.valid = true) :
    ∀ c ∈ t.render.data, c ≠ 'Z' := by
  rw [OffsetTs.valid] at hv
  simp only [Bool.and_eq_true, decide_eq_true_eq] at hv
  obtain ⟨⟨⟨⟨⟨⟨⟨⟨⟨⟨⟨⟨⟨⟨hy1, hy2⟩, hm1⟩, hm2⟩, hd1⟩, hd2⟩, hsep⟩, hh⟩,
    hmi⟩, hs⟩, hfr⟩, hoh⟩, hom⟩, hos⟩, hbound⟩ := hv
  have hf : ∀ k v, t.frac = some (k, v) → 1 ≤ k ∧ k ≤ 6 ∧ v < 10 ^ k := by
    intro k v he
    rw [he] at hfr
    simpa [and_assoc] using hfr
  have hz : ∀ d, d < 10 → digitChar d ≠ 'Z' :=
    fun d hd => (digitChar_spec d hd).2.2.2.2.2.2.2.2.1
  have hdm := daysInMonth_le t.year t.month
  intro c hc
  rw [show t.render.data =
    t.dateChars ++ t.sep :: ((t.clockChars ++ t.fracChars) ++ t.offChars)
    from rfl] at hc
  rcases List.mem_append.mp hc with h1 | h1
  · rcases hb : t.dateBasic
    · rw [dateChars_ext t hb] at h1
      simp only [List.mem_cons, List.not_mem_nil, or_false] at h1
      rcases h1 with rfl | rfl | rfl | rfl | rfl | rfl | rfl | rfl | rfl | rfl
      · exact hz _ (by omega)
      · exact hz _ (by omega)
      · exact hz _ (by omega)
      · exact hz _ (by omega)
      · decide
      · exact hz _ (by omega)
      · exact hz _ (by omega)
      · decide
      · exact hz _ (by omega)
      · exact hz _ (by omega)
    · rw [dateChars_basic t hb] at h1
      simp only [List.mem_cons, List.not_mem_nil, or_false] at h1
      rcases h1 with rfl | rfl | rfl | rfl | rfl | rfl | rfl | rfl
      · exact hz _ (by omega)
      · exact hz _ (by omega)
      · exact hz _ (by omega)
      · exact hz _ (by omega)
      · exact hz _ (by omega)
      · exact hz _ (by omega)
      · exact hz _ (by omega)
      · exact hz _ (by omega)
  · rcases List.mem_cons.mp h1 with rfl | h2
    · exact hsep
    · rcases List.mem_append.mp h2 with h3 | h3
      · rcases clock_frac_classify t (by omega) (by omega) (by omega) c h3 with
          ⟨d, hd, rfl⟩ | rfl | rfl
        · exact hz _ hd
        · decide
        · decide
      · rw [OffsetTs.offChars] at h3
        rcases List.mem_cons.mp h3 with rfl | h4
        · rcases hneg : t.negOff <;> simp [hneg]
        · rcases offTail_classify t hoh hom hos c h4 with ⟨d, hd, rfl⟩ | rfl
          · exact hz _ hd
          · decide

lemma foldrZ_id (l : List Char) (h : ∀ c ∈ l, c ≠ 'Z') :
    l.foldr
      (fun c acc =>
        if c = 'Z' then '+' :: '0' :: '0' :: ':' :: '0' :: '0' :: acc
        else c :: acc) [] = l := by
  induction l with
  | nil => rfl
  | cons c l ih =>
    have hc : c ≠ 'Z' := h c (List.mem_cons_self _ _)
    simp only [List.foldr_cons, if_neg hc]
    rw [ih (fun c' hc' => h c' (List.mem_cons_of_mem _ hc'))]

lemma replaceZ_id (s : String) (h : ∀ c ∈ s.data, c ≠ 'Z') :
    replaceZ s = s := by
  unfold replaceZ
  rw [foldrZ_id s.data h]

lemma fromisoformat_render (t : OffsetTs) (hv : t.valid = true) :
    fromisoformat t.render = some t.parsedDt := by
  have hv' := hv
  rw [OffsetTs.valid] at hv'
  simp only [Bool.and_eq_true, decide_eq_true_eq] at hv'
  obtain ⟨⟨⟨⟨⟨⟨⟨⟨⟨⟨⟨⟨⟨⟨hy1, hy2⟩, hm1⟩, hm2⟩, hd1⟩, hd2⟩, hsep⟩, hh⟩,
    hmi⟩, hs⟩, hfr⟩, hoh⟩, hom⟩, hos⟩, hbound⟩ := hv'
  have hf : ∀ k v, t.frac = some (k, v) → 1 ≤ k ∧ k ≤ 6 ∧ v < 10 ^ k := by
    intro k v he
    rw [he] at hfr
    simpa [and_assoc] using hfr
  have hclockfrac := parse_isotime_c_render t hh hmi hs hf hoh hom hos hbound
  have hdate := parse_isodate_c_render t hy1 hy2 hm1 hm2 hd1 hd2
  have hfind := findSep_render t hm2 ((t.clockChars ++ t.fracChars) ++ t.offChars)
  have hR1 : 1 ≤ t.offChars.length := by
    rw [OffsetTs.offChars]
    simp
  have hA8 : 8 ≤ t.dateChars.length := by
    rcases hb : t.dateBasic
    · rw [dateChars_ext t hb]
      simp
    · rw [dateChars_basic t hb]
      simp
  have hdrop : (t.dateChars ++ t.sep ::
      ((t.clockChars ++ t.fracChars) ++ t.offChars)).drop
        (t.dateChars.length + 1) = (t.clockChars ++ t.fracChars) ++ t.offChars := by
    rw [show t.dateChars ++ t.sep :: ((t.clockChars ++ t.fracChars) ++ t.offChars) =
      (t.dateChars ++ [t.sep]) ++ ((t.clockChars ++ t.fracChars) ++ t.offChars)
      from by simp]
    rw [show t.dateChars.length + 1 = (t.dateChars ++ [t.sep]).length from by simp]
    exact List.drop_left _ _
  unfold fromisoformat
  rw [show t.render.data =
    t.dateChars ++ t.sep :: ((t.clockChars ++ t.fracChars) ++ t.offChars)
    from rfl]
  rw [if_neg (by simp only [List.length_append, List.length_cons]; omega)]
  rw [hfind]
  simp only [Option.bind_eq_bind, Option.some_bind, Option.pure_def]
  rw [List.take_left, hdate]
  simp only [Option.some_bind]
  rw [if_neg (by simp only [List.length_append, List.length_cons]; omega)]
  rw [if_neg (by simp only [List.length_append, List.length_cons]; omega)]
  rw [hdrop, hclockfrac]
  simp only [Option.some_bind]
  rw [if_neg (by rintro ⟨hc, _⟩; omega)]
  rw [if_pos ⟨hh, emin_le t hmi, esec_le t hs⟩]
  rfl

lemma epoch_us_aware (dt : PyDateTime) (off : Int) (h : dt.tz_offset = some off)
    (tz₁ tz₂ : Int) : epoch_us dt tz₁ = epoch_us dt tz₂ := by
  simp [epoch_us, h]

lemma resolve_render (t : OffsetTs) (hv : t.valid = true) (tz lead : Int) :
    resolveDeliveryInstant tz t.render lead =
      some (Int.tdiv (epoch_us t.parsedDt 0) 1000000 - lead * 60) := by
  rw [resolveDeliveryInstant, replaceZ_id t.render (render_no_Z t hv),
    fromisoformat_render t hv]
  simp only [Option.map_some']
  rw [timestamp_int, epoch_us_aware t.parsedDt t.offUs rfl tz 0]

/-- C10: register also accepts event start timestamps whose UTC offset is
written as an explicit numeric offset rather than the Z suffix — any
well-formed spelling over a calendar date (extended or basic), any clock
shape with an optional 1–6 digit fraction, and an offset written as one of
`±HH`, `±HHMM`, `±HH:MM`, `±HHMMSS`, `±HH:MM:SS`: for every such input the
timestamp parses (so the call does not fail with InvalidTimestamp), the
delivery instant is the equivalent UTC instant minus the lead time —
independent of the local-timezone environment — and two spellings of the
same instant produce the same deliverAt. -/
theorem resolve_numeric_offset (tz₁ tz₂ lead : Int) (db : DB) (uid : Int)
    (nm url : String) (t t' : OffsetTs) (hv : t.valid = true)
    (hv' : t'.valid = true) :
    fromisoformat (replaceZ t.render) = some t.parsedDt ∧
    (add_reminder tz₁ db uid nm url t.render lead).2 ≠
      AddResult.invalidTimestamp ∧
    resolveDeliveryInstant tz₁ t.render lead =
      some (Int.tdiv (epoch_us t.parsedDt 0) 1000000 - lead * 60) ∧
    resolveDeliveryInstant tz₁ t.render lead =
      resolveDeliveryInstant tz₂ t.render lead ∧
    (epoch_us t.parsedDt 0 = epoch_us t'.parsedDt 0 →
      resolveDeliveryInstant tz₁ t.render lead =
        resolveDeliveryInstant tz₁ t'.render lead) := by
  have h1 : fromisoformat (replaceZ t.render) = some t.parsedDt := by
    rw [replaceZ_id t.render (render_no_Z t hv), fromisoformat_render t hv]
  refine ⟨h1, ?_, resolve_render t hv tz₁ lead, ?_, ?_⟩
  · rw [add_reminder, h1]
    split
    · rename_i heq
      simp at heq
    · split <;> simp
  · rw [resolve_render t hv tz₁ lead, resolve_render t hv tz₂ lead]
  · intro he
    rw [resolve_render t hv tz₁ lead, resolve_render t' hv' tz₁ lead, he]

/-- Witness for C10 at the claim's two spellings of the instant
1748772000 (`2025-06-01T10:00:00+00:00` and `2025-06-01T15:30:00+05:30`),
with lead 15 minutes and environments UTC and UTC+1. -/
theorem resolve_numeric_offset_witness :
    tsUTC.valid = true ∧ tsIST.valid = true ∧
    epoch_us tsUTC.parsedDt 0 = epoch_us tsIST.parsedDt 0 ∧
    fromisoformat (replaceZ tsUTC.render) = some tsUTC.parsedDt ∧
    (add_reminder 0 ⟨[], 1⟩ 7 "CF" "u" tsUTC.render 15).2 = AddResult.created ∧
    resolveDeliveryInstant 0 tsUTC.render 15 = some 1748771100 ∧
    resolveDeliveryInstant 0 tsUTC.render 15 =
      resolveDeliveryInstant 3600 tsUTC.render 15 ∧
    resolveDeliveryInstant 0 tsUTC.render 15 =
      resolveDeliveryInstant 0 tsIST.render 15 := by
  have h := resolve_numeric_offset 0 3600 15 ⟨[], 1⟩ 7 "CF" "u" tsUTC tsIST
    (by decide) (by decide)
  exact ⟨by decide, by decide, by decide, h.1, by decide, by decide,
    h.2.2.2.1, h.2.2.2.2 (by decide)⟩
